import Mathlib

/-!
Verification development for the planning-poker room server
(server/roomStore.ts and server/wsHooks.ts).

The data model and every operation below is a direct shallow embedding of
the TypeScript source:
  - a JS `Map` of players keyed by player id becomes an insertion-ordered
    `List Player` manipulated through keyed set/get/delete helpers;
  - a JS `Set` of strings becomes a duplicate-free `List String` built by
    `setAdd`;
  - `undefined` versus `null` for the DTO `vote` field is modelled by
    `Option (Option CardValue)` (`none` = field omitted / undefined,
    `some none` = explicit null);
  - outbound traffic is ledgered as a list of `(recipientId, message)`
    pairs, one entry per `sendTo` call the source performs;
  - timers are not part of the state: timer callbacks (the attention-check
    fire and resolve) are modelled as externally triggered events, and the
    random delay / `Date.now()` deadline are oracle parameters.
-/

namespace PPoker

/-- The fixed closed set of card labels (`CardValue` in src/lib/types). -/
inductive CardValue where
  | c1
  | c2
  | c3
  | c5
  | c8
  | c13
  | c21
  | questionMark
  | infinityCard
deriving DecidableEq

/-- `Player` record from src/lib/types. `vote = none` is the JS `null`. -/
structure Player where
  id : String
  name : String
  isHost : Bool
  isActive : Bool
  vote : Option CardValue
  hasVoted : Bool
deriving DecidableEq

/-- The `activeCheck` sub-record of `Room` (deadline, respondedIds, targetIds). -/
structure AttentionCheck where
  deadline : Nat
  respondedIds : List String
  targetIds : List String
deriving DecidableEq

/-- `Room` record from src/lib/types. `players` is the JS `Map` in insertion
order; the `attentionCheckTimer` handle is not part of the model. -/
structure Room where
  id : String
  code : String
  players : List Player
  votingOpen : Bool
  revealed : Bool
  hostId : String
  activeCheck : Option AttentionCheck
deriving DecidableEq

/-- `PlayerDTO`: the outbound projection of a player. The `vote` field is
`none` when the source leaves it `undefined` (omitted on the wire) and
`some none` when it is an explicit `null`. -/
structure PlayerDTO where
  id : String
  name : String
  isHost : Bool
  isActive : Bool
  hasVoted : Bool
  vote : Option (Option CardValue)
deriving DecidableEq

/-- `RoomDTO`: the outbound projection of a room; `activeCheck` keeps only
the deadline. -/
structure RoomDTO where
  id : String
  code : String
  players : List PlayerDTO
  votingOpen : Bool
  revealed : Bool
  hostId : String
  activeCheck : Option Nat
deriving DecidableEq

/-- `ServerMessage` union from src/lib/types (server → client). -/
inductive ServerMessage where
  | roomState (room : RoomDTO) (playerId : String)
  | playerJoined (player : PlayerDTO)
  | playerLeft (playerId : String)
  | votingOpened
  | voteCast (playerId : String)
  | votesRevealed (votes : List (String × Option CardValue))
  | roundReset
  | hostChanged (newHostId : String)
  | attentionCheck (deadline : Nat)
  | playerStatus (playerId : String) (isActive : Bool)
  | error (message : String)
deriving DecidableEq

/-- `ClientMessage` union from src/lib/types (client → server). Optional
JSON fields are `Option String`. -/
inductive ClientMessage where
  | join (name : String) (roomId : Option String) (code : Option String)
  | openVotingMsg
  | vote (value : CardValue)
  | reveal
  | newRound
  | assignHostMsg (playerId : String)
  | checkIn
  | markActive
deriving DecidableEq

/-- A send ledger entry: `sendTo(playerId, msg)`. -/
abbrev Send := String × ServerMessage

-- ── JS collection primitives ─────────────────────────────────────────────────

/-- `Map.get(id)` on the players map: first entry with the given id. -/
def mapGet (ps : List Player) (pid : String) : Option Player :=
  ps.find? (fun p => p.id == pid)

/-- `Map.set(p.id, p)`: replace in place when the key exists, append
otherwise (JS `Map` keeps the original insertion position on overwrite). -/
def mapSet : List Player → Player → List Player
  | [], p => [p]
  | q :: rest, p => if q.id == p.id then p :: rest else q :: mapSet rest p

/-- `Map.delete(id)` on the players map. -/
def mapDelete (ps : List Player) (pid : String) : List Player :=
  ps.filter (fun p => !(p.id == pid))

/-- `Set.add(x)` on a string set. -/
def setAdd (s : List String) (x : String) : List String :=
  if s.contains x then s else s ++ [x]

-- ── roomStore.ts: DTO projections ────────────────────────────────────────────

/-- `toPlayerDTO(player, revealed)`: copies the public fields and sets
`vote` to `revealed ? player.vote : undefined`. -/
def toPlayerDTO (player : Player) (revealed : Bool) : PlayerDTO :=
  { id := player.id
    name := player.name
    isHost := player.isHost
    isActive := player.isActive
    hasVoted := player.hasVoted
    vote := if revealed then some player.vote else none }

/-- `toRoomDTO(room)`: projects every player with the room's `revealed`
flag and keeps only the deadline of `activeCheck`. -/
def toRoomDTO (room : Room) : RoomDTO :=
  { id := room.id
    code := room.code
    players := room.players.map (fun p => toPlayerDTO p room.revealed)
    votingOpen := room.votingOpen
    revealed := room.revealed
    hostId := room.hostId
    activeCheck := room.activeCheck.map (fun c => c.deadline) }

-- ── roomStore.ts: registry lookups ──────────────────────────────────────────

/-- The room registry: the values of the module-level `rooms` map in
insertion order (each room is stored under its own `id`). -/
abbrev Registry := List Room

/-- `getRoomById(roomId)`. -/
def getRoomById (rooms : Registry) (roomId : String) : Option Room :=
  rooms.find? (fun r => r.id == roomId)

/-- `getRoomByCode(code)`: scans the live rooms and returns the first one
whose code is exactly (case-sensitively) equal to the argument. -/
def getRoomByCode (rooms : Registry) (code : String) : Option Room :=
  rooms.find? (fun r => r.code == code)

/-- `rooms.set(room.id, room)` on the registry. -/
def roomsSet : Registry → Room → Registry
  | [], room => [room]
  | r :: rest, room => if r.id == room.id then room :: rest else r :: roomsSet rest room

/-- Write-back of an in-place mutation of the room stored under `rid`. -/
def updateRoomIn (rooms : Registry) (rid : String) (room1 : Room) : Registry :=
  rooms.map (fun r => if r.id == rid then room1 else r)

/-- `rooms.delete(roomId)` (the registry part of `closeRoom`). -/
def roomsDelete (rooms : Registry) (rid : String) : Registry :=
  rooms.filter (fun r => !(r.id == rid))

-- ── roomStore.ts: room state machine ────────────────────────────────────────

/-- `openVoting(room)`: fails when already voting or revealed, otherwise
sets `votingOpen` and reports success. -/
def openVoting (room : Room) : Room × Bool :=
  if room.votingOpen || room.revealed then (room, false)
  else ({ room with votingOpen := true }, true)

/-- `castVote(room, playerId, value)`: requires an existing member and an
open voting session; records the vote and sets `hasVoted`. -/
def castVote (room : Room) (playerId : String) (value : CardValue) : Room × Bool :=
  match mapGet room.players playerId with
  | none => (room, false)
  | some _ =>
    if !room.votingOpen then (room, false)
    else
      ({ room with
          players := room.players.map (fun p =>
            if p.id == playerId then { p with vote := some value, hasVoted := true } else p) },
        true)

/-- `revealVotes(room)`: unconditionally closes voting, sets `revealed`,
and returns the full playerId → vote record (in player insertion order). -/
def revealVotes (room : Room) : Room × List (String × Option CardValue) :=
  ({ room with votingOpen := false, revealed := true },
    room.players.map (fun p => (p.id, p.vote)))

/-- `resetRound(room)`: back to the lobby; clears every vote. -/
def resetRound (room : Room) : Room :=
  { room with
      votingOpen := false
      revealed := false
      players := room.players.map (fun p => { p with vote := none, hasVoted := false }) }

/-- `oldHost.isHost = false` applied to the player map: clear the flag of
the player with the given id. -/
def clearHost (cur : String) (p : Player) : Player :=
  if p.id == cur then { p with isHost := false } else p

/-- `newHost.isHost = true` applied to the player map: set the flag of
the player with the given id. -/
def setHost (tgt : String) (p : Player) : Player :=
  if p.id == tgt then { p with isHost := true } else p

/-- `assignHost(room, currentHostId, newHostId)`: requester must be the
current host and both players must exist; clears the old host flag, sets
the new one (in that order, as the source does), and updates `hostId`. -/
def assignHost (room : Room) (currentHostId newHostId : String) : Room × Bool :=
  if !(room.hostId == currentHostId) then (room, false)
  else
    match mapGet room.players currentHostId, mapGet room.players newHostId with
    | some _, some _ =>
      ({ room with
          players := (room.players.map (clearHost currentHostId)).map (setHost newHostId),
          hostId := newHostId }, true)
    | _, _ => (room, false)

/-- `handleCheckIn(room, playerId)`: no-op without a pending check;
otherwise adds the caller's id to `respondedIds` (no membership test
against `targetIds`). -/
def handleCheckIn (room : Room) (playerId : String) : Room :=
  match room.activeCheck with
  | none => room
  | some chk =>
    { room with activeCheck := some { chk with respondedIds := setAdd chk.respondedIds playerId } }

/-- `handleMarkActive(room, playerId)` without its broadcast: returns the
updated room and whether the player was found (the caller broadcasts
`PLAYER_STATUS` exactly when it was). -/
def handleMarkActive (room : Room) (playerId : String) : Room × Bool :=
  match mapGet room.players playerId with
  | none => (room, false)
  | some _ =>
    ({ room with
        players := room.players.map (fun p =>
          if p.id == playerId then { p with isActive := true } else p) },
      true)

-- ── roomStore.ts: broadcast helper ──────────────────────────────────────────

/-- `broadcastToRoom(roomId, msg, excludeId?)`: one `sendTo` per current
member except the excluded id. -/
def broadcastToRoom (rooms : Registry) (rid : String) (msg : ServerMessage)
    (excludeId : Option String) : List Send :=
  match getRoomById rooms rid with
  | none => []
  | some room =>
    ((room.players.map Player.id).filter (fun i => !(some i == excludeId))).map
      (fun i => (i, msg))

-- ── roomStore.ts: removePlayerFromRoom ──────────────────────────────────────

/-- `removePlayerFromRoom(roomId, playerId)`: deletes the player; closes
the room when it empties; promotes the first remaining member when the
host left (broadcasting `HOST_CHANGED`). Returns the updated registry,
the `roomClosed` flag and the sends performed. -/
def removePlayerFromRoom (rooms : Registry) (rid pid : String) :
    Registry × Bool × List Send :=
  match getRoomById rooms rid with
  | none => (rooms, true, [])
  | some room =>
    match mapDelete room.players pid with
    | [] => (roomsDelete rooms rid, true, [])
    | h :: t =>
      if room.hostId == pid then
        let room1 := { room with players := { h with isHost := true } :: t, hostId := h.id }
        let rooms1 := updateRoomIn rooms rid room1
        (rooms1, false, broadcastToRoom rooms1 rid (ServerMessage.hostChanged h.id) none)
      else
        (updateRoomIn rooms rid { room with players := h :: t }, false, [])

-- ── roomStore.ts: attention check ───────────────────────────────────────────

/-- Body of `fireAttentionCheck(roomId)` (the timer callback), with the
computed deadline as an oracle parameter. Outside an open voting session,
or with no eligible target, it only re-arms the timer (no state change,
no sends). -/
def fireAttentionCheck (rooms : Registry) (rid : String) (deadline : Nat) :
    Registry × List Send :=
  match getRoomById rooms rid with
  | none => (rooms, [])
  | some room =>
    if !room.votingOpen then (rooms, [])
    else
      let targetIds :=
        (room.players.filter (fun p => !(p.id == room.hostId) && !p.hasVoted)).map Player.id
      if targetIds.isEmpty then (rooms, [])
      else
        let room1 := { room with activeCheck := some ⟨deadline, [], targetIds⟩ }
        (updateRoomIn rooms rid room1,
          targetIds.map (fun i => (i, ServerMessage.attentionCheck deadline)))

/-- The per-target loop of `resolveAttentionCheck`: every target that is
still a member and did not respond is marked inactive, with a
`PLAYER_STATUS` broadcast to the room after each mutation. -/
def resolveLoop (targets responded : List String) (room : Room) : Room × List Send :=
  match targets with
  | [] => (room, [])
  | tid :: rest =>
    match mapGet room.players tid with
    | none => resolveLoop rest responded room
    | some _ =>
      if responded.contains tid then resolveLoop rest responded room
      else
        let room1 := { room with
          players := room.players.map (fun p =>
            if p.id == tid then { p with isActive := false } else p) }
        let sends := room1.players.map (fun p =>
          (p.id, ServerMessage.playerStatus tid false))
        let next := resolveLoop rest responded room1
        (next.1, sends ++ next.2)

/-- `resolveAttentionCheck` restricted to one room: clears `activeCheck`
first (as the source does), then runs the loop over the snapshot. -/
def resolveCheckRoom (room : Room) : Room × List Send :=
  match room.activeCheck with
  | none => (room, [])
  | some chk => resolveLoop chk.targetIds chk.respondedIds { room with activeCheck := none }

/-- `resolveAttentionCheck(roomId)` (the window-expiry callback). -/
def resolveAttentionCheck (rooms : Registry) (rid : String) : Registry × List Send :=
  match getRoomById rooms rid with
  | none => (rooms, [])
  | some room =>
    match room.activeCheck with
    | none => (rooms, [])
    | some _ =>
      let res := resolveCheckRoom room
      (updateRoomIn rooms rid res.1, res.2)

-- ── wsHooks.ts: message dispatcher ──────────────────────────────────────────

/-- Dispatcher state: the room registry plus the peer → room index
(`peerRooms`), an association list with JS `Map` key semantics. -/
structure ServerState where
  rooms : Registry
  peerRooms : List (String × String)
deriving DecidableEq

/-- `peerRooms.set(peerId, roomId)`. -/
def prSet : List (String × String) → String → String → List (String × String)
  | [], k, v => [(k, v)]
  | (k0, v0) :: rest, k, v =>
    if k0 == k then (k, v) :: rest else (k0, v0) :: prSet rest k v

/-- `peerRooms.delete(peerId)`. -/
def prDelete (pr : List (String × String)) (k : String) : List (String × String) :=
  pr.filter (fun e => !(e.1 == k))

/-- JS truthiness of an optional string field (the empty string is falsy). -/
def truthy (s : Option String) : Option String :=
  match s with
  | some v => if v == "" then none else some v
  | none => none

/-- JS `toUpperCase()` on the ASCII strings used as room codes: uppercase
every character. (Same value as `String.toUpper`, defined structurally on
the character list so the kernel can evaluate it.) -/
def jsToUpper (s : String) : String := ⟨s.data.map Char.toUpper⟩

/-- JS `trim()`: strip leading and trailing whitespace. (Same value as
`String.trim`, defined structurally on the character list so the kernel
can evaluate it.) -/
def jsTrim (s : String) : String :=
  ⟨((s.data.dropWhile Char.isWhitespace).reverse.dropWhile Char.isWhitespace).reverse⟩

/-- The room-resolution expression of the JOIN case:
`roomId ? getRoomById(roomId) : code ? getRoomByCode(code.toUpperCase()) : undefined`. -/
def joinLookup (rooms : Registry) (roomId code : Option String) : Option Room :=
  match truthy roomId with
  | some rid => getRoomById rooms rid
  | none =>
    match truthy code with
    | some c => getRoomByCode rooms (jsToUpper c)
    | none => none

/-- `wsHooks.message(peer, raw)`. `m = none` models a `JSON.parse` failure.
`freshId`/`freshCode` are the oracle values of `crypto.randomUUID()` and
`uniqueCode()` consumed when a new room is created. Note the source's
`switch` has no `OPEN_VOTING` case, so that message type falls through
with no effect. -/
def handleMsg (st : ServerState) (pid : String) (m : Option ClientMessage)
    (freshId freshCode : String) : ServerState × List Send :=
  match m with
  | none => (st, [(pid, ServerMessage.error ("Invalid JSON"))])
  | some msg =>
    match msg with
    | ClientMessage.join name roomId code =>
      if (jsTrim name) == "" then (st, [(pid, ServerMessage.error ("Name is required"))])
      else
        match joinLookup st.rooms roomId code with
        | none =>
          let host : Player := ⟨pid, (jsTrim name), true, true, none, false⟩
          let room : Room := ⟨freshId, freshCode, [host], false, false, pid, none⟩
          (⟨roomsSet st.rooms room, prSet st.peerRooms pid room.id⟩,
            [(pid, ServerMessage.roomState (toRoomDTO room) pid)])
        | some room =>
          let player : Player := ⟨pid, (jsTrim name), false, true, none, false⟩
          let room1 := { room with players := mapSet room.players player }
          let rooms1 := updateRoomIn st.rooms room.id room1
          (⟨rooms1, prSet st.peerRooms pid room.id⟩,
            (pid, ServerMessage.roomState (toRoomDTO room1) pid) ::
              broadcastToRoom rooms1 room.id
                (ServerMessage.playerJoined (toPlayerDTO player room1.revealed)) (some pid))
    | ClientMessage.openVotingMsg => (st, [])
    | ClientMessage.vote value =>
      match st.peerRooms.lookup pid with
      | none => (st, [])
      | some rid =>
        match getRoomById st.rooms rid with
        | none => (st, [])
        | some room =>
          let res := castVote room pid value
          if res.2 then
            let rooms1 := updateRoomIn st.rooms rid res.1
            (⟨rooms1, st.peerRooms⟩,
              broadcastToRoom rooms1 rid (ServerMessage.voteCast pid) none)
          else (st, [(pid, ServerMessage.error ("Cannot vote right now"))])
    | ClientMessage.reveal =>
      match st.peerRooms.lookup pid with
      | none => (st, [])
      | some rid =>
        match getRoomById st.rooms rid with
        | none => (st, [])
        | some room =>
          if !(room.hostId == pid) then
            (st, [(pid, ServerMessage.error ("Only the host can reveal votes"))])
          else
            let res := revealVotes room
            let rooms1 := updateRoomIn st.rooms rid res.1
            (⟨rooms1, st.peerRooms⟩,
              broadcastToRoom rooms1 rid (ServerMessage.votesRevealed res.2) none)
    | ClientMessage.newRound =>
      match st.peerRooms.lookup pid with
      | none => (st, [])
      | some rid =>
        match getRoomById st.rooms rid with
        | none => (st, [])
        | some room =>
          if !(room.hostId == pid) then
            (st, [(pid, ServerMessage.error ("Only the host can start a new round"))])
          else
            let rooms1 := updateRoomIn st.rooms rid (resetRound room)
            (⟨rooms1, st.peerRooms⟩,
              broadcastToRoom rooms1 rid ServerMessage.roundReset none)
    | ClientMessage.assignHostMsg target =>
      match st.peerRooms.lookup pid with
      | none => (st, [])
      | some rid =>
        match getRoomById st.rooms rid with
        | none => (st, [])
        | some room =>
          let res := assignHost room pid target
          if res.2 then
            let rooms1 := updateRoomIn st.rooms rid res.1
            (⟨rooms1, st.peerRooms⟩,
              broadcastToRoom rooms1 rid (ServerMessage.hostChanged target) none)
          else (st, [(pid, ServerMessage.error ("Cannot assign host"))])
    | ClientMessage.checkIn =>
      match st.peerRooms.lookup pid with
      | none => (st, [])
      | some rid =>
        match getRoomById st.rooms rid with
        | none => (st, [])
        | some room =>
          (⟨updateRoomIn st.rooms rid (handleCheckIn room pid), st.peerRooms⟩, [])
    | ClientMessage.markActive =>
      match st.peerRooms.lookup pid with
      | none => (st, [])
      | some rid =>
        match getRoomById st.rooms rid with
        | none => (st, [])
        | some room =>
          let res := handleMarkActive room pid
          if res.2 then
            let rooms1 := updateRoomIn st.rooms rid res.1
            (⟨rooms1, st.peerRooms⟩,
              broadcastToRoom rooms1 rid (ServerMessage.playerStatus pid true) none)
          else (st, [])

/-- `wsHooks.close(peer)`: unbind the peer, remove it from its room, and
broadcast `PLAYER_LEFT` when the room survives. -/
def handleClose (st : ServerState) (pid : String) : ServerState × List Send :=
  match st.peerRooms.lookup pid with
  | none => (⟨st.rooms, prDelete st.peerRooms pid⟩, [])
  | some rid =>
    let pr1 := prDelete st.peerRooms pid
    let res := removePlayerFromRoom st.rooms rid pid
    if res.2.1 then (⟨res.1, pr1⟩, res.2.2)
    else
      (⟨res.1, pr1⟩,
        res.2.2 ++ broadcastToRoom res.1 rid (ServerMessage.playerLeft pid) none)

-- ── Event system ────────────────────────────────────────────────────────────

/-- An externally triggered transition of the core: an inbound message, a
disconnect, or one of the two attention-check timer callbacks. -/
inductive Event where
  | msgEv (pid : String) (m : Option ClientMessage) (freshId freshCode : String)
  | closeEv (pid : String)
  | fireEv (rid : String) (deadline : Nat)
  | resolveEv (rid : String)
deriving DecidableEq

/-- One transition of the whole server. -/
def step (st : ServerState) (e : Event) : ServerState × List Send :=
  match e with
  | Event.msgEv pid m fid fcode => handleMsg st pid m fid fcode
  | Event.closeEv pid => handleClose st pid
  | Event.fireEv rid dl =>
    let res := fireAttentionCheck st.rooms rid dl
    (⟨res.1, st.peerRooms⟩, res.2)
  | Event.resolveEv rid =>
    let res := resolveAttentionCheck st.rooms rid
    (⟨res.1, st.peerRooms⟩, res.2)

/-- The state part of `step`. -/
def stepState (st : ServerState) (e : Event) : ServerState :=
  (step st e).1

/-- The empty boot state. -/
def initState : ServerState := ⟨[], []⟩

/-- Run a sequence of events. -/
def runEvents (st : ServerState) (es : List Event) : ServerState :=
  es.foldl stepState st

/-- Freshness side condition on an event: a JOIN that lands in an existing
room must come from a peer id that is not already a member of that room
(i.e. a fresh connection, the intended mode of operation). All other
events are unconditionally legal. -/
def legalEvent (st : ServerState) (e : Event) : Bool :=
  match e with
  | Event.msgEv pid (some (ClientMessage.join _ roomId code)) _ _ =>
    match joinLookup st.rooms roomId code with
    | some room => !((room.players.map Player.id).contains pid)
    | none => true
  | _ => true

/-- States reachable from boot through legal events. -/
inductive Reachable : ServerState → Prop where
  | init : Reachable initState
  | next (st : ServerState) (e : Event) (h : Reachable st)
      (hl : legalEvent st e = true) : Reachable (stepState st e)

-- ── Small lemmas about the collection primitives ────────────────────────────

theorem mapGet_eq_some_of_exists {ps : List Player} {t : String}
    (h : ∃ p ∈ ps, p.id = t) : ∃ q, mapGet ps t = some q ∧ q.id = t := by
  cases hg : ps.find? (fun p => p.id == t) with
  | none =>
    exfalso
    obtain ⟨p, hp, hid⟩ := h
    have := List.find?_eq_none.mp hg p hp
    exact this (beq_iff_eq.mpr hid)
  | some q =>
    have hpa := List.find?_some hg
    exact ⟨q, hg, beq_iff_eq.mp hpa⟩

theorem mapSet_of_fresh {ps : List Player} {p : Player}
    (h : ¬ p.id ∈ ps.map Player.id) : mapSet ps p = ps ++ [p] := by
  induction ps with
  | nil => rfl
  | cons q rest ih =>
    simp only [List.map_cons, List.mem_cons, not_or] at h
    have hb : ¬ (q.id == p.id) = true := fun hb => h.1 ((beq_iff_eq.mp hb).symm)
    rw [mapSet, if_neg hb, ih h.2]
    rfl

theorem contains_setAdd_ne (s : List String) (x y : String) (h : ¬ y = x) :
    (setAdd s x).contains y = s.contains y := by
  unfold setAdd
  split
  · rfl
  · simp [List.contains_eq_any_beq, List.any_append, beq_iff_eq, h]

-- ── Claim C1 ────────────────────────────────────────────────────────────────

/-- Claim C1: the outbound projection omits every player's vote (DTO field
is `none`, i.e. `undefined` on the wire) whenever the room is not
revealed, regardless of whether the player voted; once revealed, the
projection carries each player's vote verbatim. -/
theorem dto_vote_confidentiality (room : Room) :
    (toRoomDTO room).players = room.players.map (fun p => toPlayerDTO p room.revealed) ∧
    (room.revealed = false → ∀ d ∈ (toRoomDTO room).players, d.vote = none) ∧
    (room.revealed = true →
      ∀ p ∈ room.players, (toPlayerDTO p room.revealed).vote = some p.vote) := by
  refine ⟨rfl, ?_, ?_⟩
  · intro hrev d hd
    simp only [toRoomDTO, List.mem_map] at hd
    obtain ⟨p, _, rfl⟩ := hd
    simp [toPlayerDTO, hrev]
  · intro hrev p _
    simp [toPlayerDTO, hrev]

/-- A concrete hidden-state room: alice voted, bob did not, not revealed. -/
def c1Room : Room :=
  ⟨"room1", "ABCD",
    [⟨"alice", "Alice", true, true, some CardValue.c5, true⟩,
      ⟨"bob", "Bob", false, true, none, false⟩],
    true, false, "alice", none⟩

/-- Witness for C1 at `c1Room` (revealed is false, alice has voted): the
projection of the voted player alice omits the vote. -/
theorem dto_vote_confidentiality_witness :
    c1Room.revealed = false ∧
    (toPlayerDTO ⟨"alice", "Alice", true, true, some CardValue.c5, true⟩
      c1Room.revealed).vote = none :=
  ⟨rfl, (dto_vote_confidentiality c1Room).2.1 rfl
    (toPlayerDTO ⟨"alice", "Alice", true, true, some CardValue.c5, true⟩ c1Room.revealed)
    (by decide)⟩

-- ── Claim C2 ────────────────────────────────────────────────────────────────

/-- A lobby room whose host alice is connected and bound. -/
def c2Room : Room :=
  ⟨"room1", "ABCD",
    [⟨"alice", "Alice", true, true, none, false⟩,
      ⟨"bob", "Bob", false, true, none, false⟩],
    false, false, "alice", none⟩

/-- The server state holding `c2Room` with both peers bound to it. -/
def c2State : ServerState :=
  ⟨[c2Room], [("alice", "room1"), ("bob", "room1")]⟩

/-- Claim C2 (failing evaluation): the dispatcher switch in wsHooks.ts has
no `OPEN_VOTING` case, so the host's `OPEN_VOTING` message in the lobby
is dropped: no state change, no `VOTING_OPENED` broadcast, not even an
error — although the store-level `openVoting` transition (which the
repository's wsHooks tests expect the dispatcher to call) succeeds from
`LOBBY` and fails on a second call exactly as the claim says. -/
theorem openVoting_dispatch_missing :
    handleMsg c2State ("alice") (some ClientMessage.openVotingMsg) ("x") ("y")
      = (c2State, []) ∧
    (openVoting c2Room).2 = true ∧ (openVoting c2Room).1.votingOpen = true ∧
    (openVoting (openVoting c2Room).1).2 = false := by
  refine ⟨rfl, ?_, ?_, ?_⟩ <;> decide

-- ── Claim C3 ────────────────────────────────────────────────────────────────

/-- Lookup of a player's vote in the broadcast record built by
`revealVotes` (first-key-wins, which is exact under distinct ids). -/
theorem lookup_revealVotes {ps : List Player}
    (hnd : (ps.map Player.id).Nodup) {p : Player} (hp : p ∈ ps) :
    (ps.map (fun q => (q.id, q.vote))).lookup p.id = some p.vote := by
  induction ps with
  | nil => cases hp
  | cons q rest ih =>
    simp only [List.map_cons, List.nodup_cons] at hnd
    rw [List.map_cons, List.lookup_cons]
    rcases List.mem_cons.mp hp with hp1 | hp1
    · subst hp1
      simp
    · have hne : ¬ p.id = q.id := by
        intro he
        exact hnd.1 (he ▸ List.mem_map.mpr ⟨p, hp1, rfl⟩)
      have hb : (p.id == q.id) = false := by
        simp [beq_iff_eq, hne]
      rw [hb]
      exact ih hnd.2 hp1

/-- A single-member lobby room (voting never opened). -/
def c3Room : Room :=
  ⟨"room3", "CCCC",
    [⟨"alice", "Alice", true, true, some CardValue.c8, true⟩],
    false, false, "alice", none⟩

/-- Claim C3 is false on the code: `revealVotes` has no legality guard.
Invoked from `LOBBY` (not `VOTING`) it does not fail — it changes state,
transitioning the room to `REVEALED`. -/
theorem revealVotes_lobby_counterexample :
    c3Room.votingOpen = false ∧ c3Room.revealed = false ∧
    (revealVotes c3Room).1.revealed = true ∧
    (revealVotes c3Room).2 = [("alice", some CardValue.c8)] := by
  decide

/-- Claim C3 (amended): `revealVotes` transitions any room — whatever its
state — to `REVEALED` (`votingOpen := false`, `revealed := true`), leaves
the membership untouched, and returns the full playerId → vote map with
`none` (null) for members who did not vote; the dispatcher's REVEAL case
guards only on the sender being the host, never on the room state. -/
theorem revealVotes_unconditional (room : Room)
    (hnd : (room.players.map Player.id).Nodup) :
    (revealVotes room).1.votingOpen = false ∧
    (revealVotes room).1.revealed = true ∧
    (revealVotes room).1.players = room.players ∧
    (revealVotes room).1.hostId = room.hostId ∧
    ∀ p ∈ room.players, (revealVotes room).2.lookup p.id = some p.vote := by
  refine ⟨rfl, rfl, rfl, rfl, ?_⟩
  intro p hp
  exact lookup_revealVotes hnd hp

/-- Witness for the amended C3 at `c2Room` (distinct ids alice, bob). -/
theorem revealVotes_unconditional_witness :
    (revealVotes c2Room).1.votingOpen = false ∧
    (revealVotes c2Room).1.revealed = true ∧
    (revealVotes c2Room).1.players = c2Room.players ∧
    (revealVotes c2Room).2.lookup ("alice") = some none := by
  have h := revealVotes_unconditional c2Room (by decide)
  exact ⟨h.1, h.2.1, h.2.2.1,
    h.2.2.2.2 ⟨"alice", "Alice", true, true, none, false⟩ (by decide)⟩

-- ── Claim C9 ────────────────────────────────────────────────────────────────

/-- A live room with the uppercase code ABCD. -/
def c9Room : Room :=
  ⟨"roomA", "ABCD", [⟨"alice", "Alice", true, true, none, false⟩],
    false, false, "alice", none⟩

/-- Claim C9 is false on the code: `getRoomByCode` compares codes exactly
(case-sensitively), so the lowercase spelling of a live room's code finds
nothing. -/
theorem getRoomByCode_case_counterexample :
    jsToUpper ("abcd") = c9Room.code ∧
    getRoomByCode [c9Room] ("abcd") = none := by
  decide

/-- Claim C9 (amended): case-insensitivity lives in the dispatcher's JOIN
path, which uppercases the supplied code before the exact-match
`getRoomByCode` scan. For a live room `r` whose code is the uppercased
form of `c` — generated codes are always uppercase — and which is the
only such room, the JOIN lookup by code resolves to `r`. -/
theorem joinLookup_code_case_insensitive (rooms : Registry) (c : String) (r : Room)
    (hmem : r ∈ rooms) (hcode : r.code = jsToUpper c)
    (huniq : ∀ r2 ∈ rooms, r2.code = jsToUpper c → r2 = r)
    (hc : ¬ c = "") :
    joinLookup rooms none (some c) = some r := by
  have hcb : (c == "") = false := by simp [beq_iff_eq, hc]
  show (match truthy none with
    | some rid => getRoomById rooms rid
    | none =>
      match truthy (some c) with
      | some c2 => getRoomByCode rooms (jsToUpper c2)
      | none => none) = some r
  rw [show truthy none = none from rfl, show truthy (some c) = some c by simp [truthy, hcb]]
  show getRoomByCode rooms (jsToUpper c) = some r
  induction rooms with
  | nil => cases hmem
  | cons r0 rest ih =>
    rw [getRoomByCode, List.find?_cons]
    cases hb : (r0.code == jsToUpper c) with
    | true =>
      have : r0 = r := huniq r0 (List.mem_cons_self r0 rest) (beq_iff_eq.mp hb)
      simpa using this
    | false =>
      have hr : r ∈ rest := by
        rcases List.mem_cons.mp hmem with h0 | h0
        · exact absurd (beq_iff_eq.mpr (h0 ▸ hcode)) (by simp [hb])
        · exact h0
      simpa using ih hr (fun r2 h2 => huniq r2 (List.mem_cons_of_mem r0 h2))

/-- Witness for the amended C9: the lowercase code abcd joins room
`c9Room` (code ABCD) through the JOIN path. -/
theorem joinLookup_code_case_insensitive_witness :
    joinLookup [c9Room] none (some ("abcd")) = some c9Room :=
  joinLookup_code_case_insensitive [c9Room] ("abcd") c9Room (by decide) (by decide)
    (by decide) (by decide)

-- ── Claim C8 ────────────────────────────────────────────────────────────────

/-- A voting room with a pending attention check targeting only bob. -/
def c8Room : Room :=
  ⟨"roomC", "EFGH",
    [⟨"alice", "Alice", true, true, none, false⟩,
      ⟨"bob", "Bob", false, true, none, false⟩],
    true, false, "alice", some ⟨999, [], ["bob"]⟩⟩

/-- Claim C8 is false on the code: `handleCheckIn` adds the caller's id
with no membership test against `targetIds`, so the host's CHECK_IN puts
alice into `respondedIds` although `targetIds = [bob]`. -/
theorem respondedIds_subset_counterexample :
    (handleCheckIn c8Room ("alice")).activeCheck = some ⟨999, ["alice"], ["bob"]⟩ ∧
    (["bob"] : List String).contains ("alice") = false := by
  decide

/-- Claim C8 (amended): `respondedIds` need not be a subset of
`targetIds` — CHECK_IN unconditionally adds the sender's id whenever a
check is pending, whoever the sender is; ids outside `targetIds` are
inert, since resolution consults `respondedIds` only for members of the
`targetIds` snapshot. -/
theorem checkIn_amended :
    (∀ (room : Room) (pid : String) (chk : AttentionCheck),
        room.activeCheck = some chk →
        (handleCheckIn room pid).activeCheck =
          some ⟨chk.deadline, setAdd chk.respondedIds pid, chk.targetIds⟩) ∧
    (∀ (targets responded : List String) (x : String) (room : Room),
        ¬ x ∈ targets →
        resolveLoop targets (setAdd responded x) room = resolveLoop targets responded room) := by
  constructor
  · intro room pid chk h
    unfold handleCheckIn
    rw [h]
  · intro targets
    induction targets with
    | nil => intro responded x room _; rfl
    | cons t rest ih =>
      intro responded x room hx
      simp only [List.mem_cons, not_or] at hx
      rw [resolveLoop, resolveLoop]
      cases mapGet room.players t with
      | none => exact ih responded x room hx.2
      | some q =>
        rw [contains_setAdd_ne responded x t (fun he => hx.1 he.symm)]
        cases responded.contains t
        · simp only [Bool.false_eq_true, if_false]
          rw [ih responded x _ hx.2]
        · simp only [if_true]
          exact ih responded x room hx.2

/-- Witness for the amended C8: the host's CHECK_IN lands in
`respondedIds` of `c8Room`, and a non-target id never changes what
resolution does. -/
theorem checkIn_amended_witness :
    (handleCheckIn c8Room ("alice")).activeCheck =
      some ⟨999, setAdd [] ("alice"), ["bob"]⟩ ∧
    resolveLoop ["bob"] (setAdd [] ("alice")) c8Room = resolveLoop ["bob"] [] c8Room :=
  ⟨checkIn_amended.1 c8Room ("alice") ⟨999, [], ["bob"]⟩ rfl,
    checkIn_amended.2 ["bob"] [] ("alice") c8Room (by decide)⟩

-- ── Lemmas about the attention-check resolution loop ────────────────────────

theorem resolveLoop_preserves_false (targets responded : List String) :
    ∀ (room : Room) (t : String),
      (∃ p ∈ room.players, p.id = t ∧ p.isActive = false) →
      ∃ q ∈ (resolveLoop targets responded room).1.players,
        q.id = t ∧ q.isActive = false := by
  induction targets with
  | nil =>
    intro room t h
    simpa [resolveLoop] using h
  | cons tid rest ih =>
    intro room t h
    rw [resolveLoop]
    cases hg : mapGet room.players tid with
    | none => exact ih room t h
    | some q0 =>
      cases hc : responded.contains tid with
      | true =>
        simp only [if_true]
        exact ih room t h
      | false =>
        simp only [Bool.false_eq_true, if_false]
        apply ih
        obtain ⟨p, hp, hid, hact⟩ := h
        refine ⟨if (p.id == tid) = true then { p with isActive := false } else p,
          List.mem_map.mpr ⟨p, hp, by split <;> simp_all⟩, ?_, ?_⟩
        · split <;> simpa using hid
        · split <;> simpa using hact

theorem resolveLoop_marks_inactive (targets : List String) :
    ∀ (responded : List String) (room : Room) (t : String),
      t ∈ targets → responded.contains t = false →
      (∃ p ∈ room.players, p.id = t) →
      ∃ q ∈ (resolveLoop targets responded room).1.players,
        q.id = t ∧ q.isActive = false := by
  induction targets with
  | nil =>
    intro _ _ _ ht
    cases ht
  | cons tid rest ih =>
    intro responded room t ht hr hm
    rw [resolveLoop]
    cases hg : mapGet room.players tid with
    | none =>
      have htt : ¬ t = tid := by
        intro he
        subst he
        obtain ⟨p, hp, hid⟩ := hm
        exact (List.find?_eq_none.mp hg p hp) (beq_iff_eq.mpr hid)
      have ht2 : t ∈ rest := by
        rcases List.mem_cons.mp ht with h0 | h0
        · exact absurd h0 htt
        · exact h0
      exact ih responded room t ht2 hr hm
    | some q0 =>
      cases hc : responded.contains tid with
      | true =>
        simp only [if_true]
        have htt : ¬ t = tid := by
          intro he
          rw [he, hc] at hr
          cases hr
        have ht2 : t ∈ rest := by
          rcases List.mem_cons.mp ht with h0 | h0
          · exact absurd h0 htt
          · exact h0
        exact ih responded room t ht2 hr hm
      | false =>
        simp only [Bool.false_eq_true, if_false]
        by_cases he : t = tid
        · apply resolveLoop_preserves_false
          obtain ⟨p, hp, hid⟩ := hm
          have hb : (p.id == tid) = true := beq_iff_eq.mpr (he ▸ hid)
          refine ⟨{ p with isActive := false },
            List.mem_map.mpr ⟨p, hp, by simp [hb]⟩, hid, rfl⟩
        · have ht2 : t ∈ rest := by
            rcases List.mem_cons.mp ht with h0 | h0
            · exact absurd h0 he
            · exact h0
          apply ih responded _ t ht2 hr
          obtain ⟨p, hp, hid⟩ := hm
          refine ⟨p, List.mem_map.mpr ⟨p, hp, ?_⟩, hid⟩
          have hb2 : (p.id == tid) = false := by
            rw [beq_eq_false_iff_ne, hid]
            exact he
          simp [hb2]

theorem resolveLoop_ignores_nontargets (targets : List String) :
    ∀ (responded : List String) (room : Room) (p : Player),
      p ∈ room.players → ¬ p.id ∈ targets →
      p ∈ (resolveLoop targets responded room).1.players := by
  induction targets with
  | nil =>
    intro _ room p hp _
    simpa [resolveLoop] using hp
  | cons tid rest ih =>
    intro responded room p hp hnt
    simp only [List.mem_cons, not_or] at hnt
    rw [resolveLoop]
    cases mapGet room.players tid with
    | none => exact ih responded room p hp hnt.2
    | some q0 =>
      cases responded.contains tid with
      | true =>
        simp only [if_true]
        exact ih responded room p hp hnt.2
      | false =>
        simp only [Bool.false_eq_true, if_false]
        apply ih responded _ p _ hnt.2
        refine List.mem_map.mpr ⟨p, hp, ?_⟩
        have : (p.id == tid) = false := by simp [beq_iff_eq, hnt.1]
        simp [this]

-- ── Claim C10 ───────────────────────────────────────────────────────────────

/-- Claim C10: MARK_ACTIVE is not a check-in. For a target of the pending
check who has not checked in, `handleMarkActive` sets `isActive := true`
(and the dispatcher broadcasts the status change) but leaves the check's
`respondedIds` untouched, so the resolution still marks the player
inactive, overriding the earlier MARK_ACTIVE. -/
theorem markActive_does_not_respond (room : Room) (t : String) (chk : AttentionCheck)
    (hck : room.activeCheck = some chk)
    (htgt : t ∈ chk.targetIds)
    (hresp : chk.respondedIds.contains t = false)
    (hmem : ∃ p ∈ room.players, p.id = t) :
    (handleMarkActive room t).2 = true ∧
    (handleMarkActive room t).1.activeCheck = some chk ∧
    (∃ p ∈ (handleMarkActive room t).1.players, p.id = t ∧ p.isActive = true) ∧
    (∃ q ∈ (resolveCheckRoom (handleMarkActive room t).1).1.players,
      q.id = t ∧ q.isActive = false) := by
  obtain ⟨q, hq, hqid⟩ := mapGet_eq_some_of_exists hmem
  have hma : handleMarkActive room t =
      ({ room with
          players := room.players.map (fun p =>
            if p.id == t then { p with isActive := true } else p) },
        true) := by
    unfold handleMarkActive
    rw [hq]
  rw [hma]
  obtain ⟨p, hp, hpid⟩ := hmem
  have hpb : (p.id == t) = true := beq_iff_eq.mpr hpid
  refine ⟨rfl, by simpa using hck, ⟨{ p with isActive := true },
    List.mem_map.mpr ⟨p, hp, by simp [hpb]⟩, hpid, rfl⟩, ?_⟩
  show ∃ q2 ∈ (resolveCheckRoom _).1.players, q2.id = t ∧ q2.isActive = false
  unfold resolveCheckRoom
  simp only [hck]
  apply resolveLoop_marks_inactive chk.targetIds chk.respondedIds _ t htgt hresp
  exact ⟨{ p with isActive := true },
    List.mem_map.mpr ⟨p, hp, by simp [hpb]⟩, hpid⟩

/-- Witness for C10 at `c8Room` (bob is the sole target, nobody checked
in): after bob's MARK_ACTIVE, resolution still marks bob inactive. -/
theorem markActive_does_not_respond_witness :
    (handleMarkActive c8Room ("bob")).2 = true ∧
    (handleMarkActive c8Room ("bob")).1.activeCheck = some ⟨999, [], ["bob"]⟩ ∧
    ((handleMarkActive c8Room ("bob")).1.players.any
      (fun p => p.id == "bob" && p.isActive)) = true ∧
    ((resolveCheckRoom (handleMarkActive c8Room ("bob")).1).1.players.any
      (fun q => q.id == "bob" && !q.isActive)) = true := by
  obtain ⟨h1, h2, ⟨p, hp, hpid, hpact⟩, ⟨q, hq, hqid, hqact⟩⟩ :=
    markActive_does_not_respond c8Room ("bob") ⟨999, [], ["bob"]⟩ rfl (by decide) (by decide)
      ⟨⟨"bob", "Bob", false, true, none, false⟩, by decide, rfl⟩
  refine ⟨h1, h2, List.any_eq_true.mpr ⟨p, hp, ?_⟩, List.any_eq_true.mpr ⟨q, hq, ?_⟩⟩
  · simp [hpid, hpact]
  · simp [hqid, hqact]

-- ── Claim C7 ────────────────────────────────────────────────────────────────

/-- Looking up the written-back room returns exactly the written value. -/
theorem getRoomById_updateRoomIn {rooms : Registry} {rid : String} {room room1 : Room}
    (hfind : getRoomById rooms rid = some room) (hid : room1.id = rid) :
    getRoomById (updateRoomIn rooms rid room1) rid = some room1 := by
  have hb1 : (room1.id == rid) = true := beq_iff_eq.mpr hid
  induction rooms with
  | nil => exact absurd hfind (by simp [getRoomById])
  | cons r rest ih =>
    show ((if (r.id == rid) = true then room1 else r) ::
      rest.map (fun r2 => if r2.id == rid then room1 else r2)).find?
        (fun r2 => r2.id == rid) = some room1
    cases hb : (r.id == rid) with
    | true =>
      simp only [hb, if_true]
      exact List.find?_cons_of_pos _ hb1
    | false =>
      simp only [hb, Bool.false_eq_true, if_false]
      rw [List.find?_cons_of_neg _ (by simp [hb])]
      have hfind2 : getRoomById rest rid = some room := by
        have := hfind
        unfold getRoomById at this
        rwa [List.find?_cons_of_neg _ (by simp [hb])] at this
      exact ih hfind2

/-- The characteristic membership of the `targetIds` snapshot computed by
the fire callback. -/
theorem mem_fire_targets (room : Room) (i : String) :
    i ∈ (room.players.filter
        (fun p => !(p.id == room.hostId) && !p.hasVoted)).map Player.id ↔
      ∃ p ∈ room.players, p.id = i ∧ ¬ i = room.hostId ∧ p.hasVoted = false := by
  constructor
  · intro h
    obtain ⟨p, hpf, hpi⟩ := List.mem_map.mp h
    obtain ⟨hp, hcond⟩ := List.mem_filter.mp hpf
    rw [Bool.and_eq_true, Bool.not_eq_true', Bool.not_eq_true'] at hcond
    exact ⟨p, hp, hpi, fun he => (beq_eq_false_iff_ne.mp hcond.1) (hpi ▸ he),
      hcond.2⟩
  · intro h
    obtain ⟨p, hp, hpi, hni, hnv⟩ := h
    refine List.mem_map.mpr ⟨p, List.mem_filter.mpr ⟨hp, ?_⟩, hpi⟩
    rw [Bool.and_eq_true, Bool.not_eq_true', Bool.not_eq_true']
    exact ⟨beq_eq_false_iff_ne.mpr (fun he => hni (hpi ▸ he)), hnv⟩

/-- Claim C7: when the attention-check timer fires outside an open voting
session the cycle is a pure skip (registry unchanged, nothing sent);
otherwise the snapshotted `targetIds` are exactly the members that are
not the host and have not voted at fire time; and resolution acts only on
that snapshot, so a member who had voted at fire time (hence is not a
target, ids being distinct) keeps its player record — in particular its
`isActive` flag — untouched by that cycle even if it never responds. -/
theorem attention_check_exemption :
    (∀ (rooms : Registry) (rid : String) (dl : Nat) (room : Room),
        getRoomById rooms rid = some room → room.votingOpen = false →
        fireAttentionCheck rooms rid dl = (rooms, [])) ∧
    (∀ (rooms : Registry) (rid : String) (dl : Nat) (room room1 : Room)
        (chk : AttentionCheck),
        getRoomById rooms rid = some room → room.activeCheck = none →
        getRoomById (fireAttentionCheck rooms rid dl).1 rid = some room1 →
        room1.activeCheck = some chk →
        (∀ i, i ∈ chk.targetIds ↔
          ∃ p ∈ room.players, p.id = i ∧ ¬ i = room.hostId ∧ p.hasVoted = false) ∧
        ((room.players.map Player.id).Nodup →
          ∀ p ∈ room.players, p.hasVoted = true → ¬ p.id ∈ chk.targetIds)) ∧
    (∀ (targets responded : List String) (room : Room) (p : Player),
        p ∈ room.players → ¬ p.id ∈ targets →
        p ∈ (resolveLoop targets responded room).1.players) := by
  refine ⟨?_, ?_, resolveLoop_ignores_nontargets⟩
  · intro rooms rid dl room hfind hvo
    simp only [fireAttentionCheck, hfind, hvo]
    rfl
  · intro rooms rid dl room room1 chk hfind hnone hfind1 hchk
    cases hvo : room.votingOpen with
    | false =>
      simp only [fireAttentionCheck, hfind, hvo, Bool.not_false, if_true] at hfind1
      have : room = room1 := Option.some.inj hfind1
      rw [← this, hnone] at hchk
      cases hchk
    | true =>
      cases hemp : ((room.players.filter
          (fun p => !(p.id == room.hostId) && !p.hasVoted)).map Player.id).isEmpty with
      | true =>
        simp only [fireAttentionCheck, hfind, hvo, hemp, Bool.not_true,
          Bool.false_eq_true, if_false, if_true] at hfind1
        have : room = room1 := Option.some.inj hfind1
        rw [← this, hnone] at hchk
        cases hchk
      | false =>
        simp only [fireAttentionCheck, hfind, hvo, hemp, Bool.not_true,
          Bool.false_eq_true, if_false] at hfind1
        have hrid : room.id = rid := by
          have := List.find?_some hfind
          exact beq_iff_eq.mp this
        have hup := @getRoomById_updateRoomIn rooms rid room
          { id := room.id, code := room.code, players := room.players,
            votingOpen := true, revealed := room.revealed, hostId := room.hostId,
            activeCheck := some (⟨dl, [], (room.players.filter
              (fun p => !(p.id == room.hostId) && !p.hasVoted)).map Player.id⟩ :
                AttentionCheck) }
          hfind hrid
        have hr1 := Option.some.inj (hup.symm.trans hfind1)
        rw [← hr1] at hchk
        have hchk2 : chk = ⟨dl, [],
            (room.players.filter
              (fun p => !(p.id == room.hostId) && !p.hasVoted)).map Player.id⟩ :=
          (Option.some.inj hchk).symm
        constructor
        · intro i
          rw [hchk2]
          exact mem_fire_targets room i
        · intro hnd p hp hv hin
          rw [hchk2] at hin
          obtain ⟨p2, hp2, hpi2, _, hnv2⟩ := (mem_fire_targets room p.id).mp hin
          have : p2 = p := List.inj_on_of_nodup_map hnd hp2 hp hpi2
          rw [this] at hnv2
          rw [hv] at hnv2
          cases hnv2

/-- A voting room where carol has voted and bob has not (no pending check). -/
def c7Room : Room :=
  ⟨"room7", "QRST",
    [⟨"alice", "Alice", true, true, none, false⟩,
      ⟨"bob", "Bob", false, true, none, false⟩,
      ⟨"carol", "Carol", false, true, some CardValue.c3, true⟩],
    true, false, "alice", none⟩

/-- The room written back by a fire of the check in `c7Room`. -/
def c7RoomFired : Room := { c7Room with activeCheck := some ⟨777, [], ["bob"]⟩ }

/-- Witness for C7: a skip outside voting on `c2Room`; the target
characterisation and voted-member exemption for a fire on `c7Room`
(targets end up being exactly bob); and carol's record surviving a
resolution she is not a target of. -/
theorem attention_check_exemption_witness :
    fireAttentionCheck [c2Room] ("room1") 500 = ([c2Room], []) ∧
    ((∀ i, i ∈ (⟨777, [], ["bob"]⟩ : AttentionCheck).targetIds ↔
        ∃ p ∈ c7Room.players, p.id = i ∧ ¬ i = c7Room.hostId ∧ p.hasVoted = false) ∧
      ((c7Room.players.map Player.id).Nodup →
        ∀ p ∈ c7Room.players, p.hasVoted = true →
          ¬ p.id ∈ (⟨777, [], ["bob"]⟩ : AttentionCheck).targetIds)) ∧
    (⟨"carol", "Carol", false, true, some CardValue.c3, true⟩ : Player) ∈
      (resolveLoop ["bob"] [] c7Room).1.players :=
  ⟨attention_check_exemption.1 [c2Room] ("room1") 500 c2Room (by decide) (by decide),
    attention_check_exemption.2.1 [c7Room] ("room7") 777 c7Room c7RoomFired
      ⟨777, [], ["bob"]⟩ (by decide) (by decide) (by decide) (by decide),
    attention_check_exemption.2.2 ["bob"] [] c7Room
      ⟨"carol", "Carol", false, true, some CardValue.c3, true⟩ (by decide) (by decide)⟩

-- ── Single-host invariant machinery (C4, C5) ────────────────────────────────

/-- Well-formedness of one room: the host id names a member, member ids
are pairwise distinct, and a member's `isHost` flag holds exactly when it
is the player `hostId` names. -/
def hostOk (r : Room) : Prop :=
  r.hostId ∈ r.players.map Player.id ∧
  (r.players.map Player.id).Nodup ∧
  ∀ p ∈ r.players, p.isHost = true ↔ p.id = r.hostId

/-- Every live room of a server state is well formed. -/
def stateOk (st : ServerState) : Prop := ∀ r ∈ st.rooms, hostOk r

theorem hostOk_congr {r r1 : Room} (hp : r1.players = r.players)
    (hh : r1.hostId = r.hostId) (h : hostOk r) : hostOk r1 := by
  unfold hostOk
  rw [hp, hh]
  exact h

theorem ids_map_of_id_preserving {ps : List Player} {f : Player → Player}
    (hid : ∀ p, (f p).id = p.id) : (ps.map f).map Player.id = ps.map Player.id := by
  rw [List.map_map]
  exact List.map_congr_left (fun p _ => hid p)

theorem hostOk_map {r r1 : Room} {f : Player → Player}
    (hid : ∀ p, (f p).id = p.id) (hih : ∀ p, (f p).isHost = p.isHost)
    (hp : r1.players = r.players.map f) (hh : r1.hostId = r.hostId)
    (h : hostOk r) : hostOk r1 := by
  obtain ⟨hmem, hnd, hiff⟩ := h
  have hids : r1.players.map Player.id = r.players.map Player.id := by
    rw [hp]
    exact ids_map_of_id_preserving hid
  refine ⟨?_, ?_, ?_⟩
  · rw [hids, hh]
    exact hmem
  · rw [hids]
    exact hnd
  · intro q hq
    rw [hp] at hq
    obtain ⟨p, hpm, hpe⟩ := List.mem_map.mp hq
    rw [← hpe, hih p, hid p, hh]
    exact hiff p hpm

theorem hostOk_openVoting (room : Room) (h : hostOk room) :
    hostOk (openVoting room).1 := by
  unfold openVoting
  split
  · exact h
  · exact hostOk_congr rfl rfl h

theorem hostOk_castVote (room : Room) (pid : String) (v : CardValue)
    (h : hostOk room) : hostOk (castVote room pid v).1 := by
  unfold castVote
  cases mapGet room.players pid with
  | none => exact h
  | some q =>
    cases hv : (!room.votingOpen) with
    | true =>
      simp only [hv, if_true]
      exact h
    | false =>
      simp only [hv, Bool.false_eq_true, if_false]
      exact hostOk_map (fun p => by split <;> rfl) (fun p => by split <;> rfl) rfl rfl h

theorem hostOk_revealVotes (room : Room) (h : hostOk room) :
    hostOk (revealVotes room).1 :=
  hostOk_congr rfl rfl h

theorem hostOk_resetRound (room : Room) (h : hostOk room) :
    hostOk (resetRound room) :=
  @hostOk_map room (resetRound room)
    (fun p => { p with vote := none, hasVoted := false })
    (fun _ => rfl) (fun _ => rfl) rfl rfl h

theorem hostOk_handleCheckIn (room : Room) (pid : String) (h : hostOk room) :
    hostOk (handleCheckIn room pid) := by
  unfold handleCheckIn
  cases room.activeCheck with
  | none => exact h
  | some chk => exact hostOk_congr rfl rfl h

theorem hostOk_handleMarkActive (room : Room) (pid : String) (h : hostOk room) :
    hostOk (handleMarkActive room pid).1 := by
  unfold handleMarkActive
  cases mapGet room.players pid with
  | none => exact h
  | some q =>
    exact hostOk_map (fun p => by split <;> rfl) (fun p => by split <;> rfl) rfl rfl h

theorem clearHost_id (cur : String) (p : Player) : (clearHost cur p).id = p.id := by
  unfold clearHost
  split <;> rfl

theorem setHost_id (tgt : String) (p : Player) : (setHost tgt p).id = p.id := by
  unfold setHost
  split <;> rfl

theorem hostOk_assignHost (room : Room) (cur tgt : String) (h : hostOk room) :
    hostOk (assignHost room cur tgt).1 := by
  unfold assignHost
  cases hc : (room.hostId == cur) with
  | false =>
    simp only [hc, Bool.not_false, if_true]
    exact h
  | true =>
    simp only [hc, Bool.not_true, Bool.false_eq_true, if_false]
    cases hg1 : mapGet room.players cur with
    | none => exact h
    | some q1 =>
      cases hg2 : mapGet room.players tgt with
      | none => exact h
      | some q2 =>
        have hcur : room.hostId = cur := beq_iff_eq.mp hc
        have hg2b : room.players.find? (fun p => p.id == tgt) = some q2 := hg2
        have hpa2 := List.find?_some hg2b
        have hq2id : q2.id = tgt := beq_iff_eq.mp hpa2
        have htgtmem : tgt ∈ room.players.map Player.id :=
          hq2id ▸ List.mem_map.mpr ⟨q2, List.mem_of_find?_eq_some hg2b, rfl⟩
        obtain ⟨hmem, hnd, hiff⟩ := h
        have hids1 : (((room.players.map (clearHost cur)).map (setHost tgt)).map Player.id)
            = room.players.map Player.id := by
          rw [ids_map_of_id_preserving (setHost_id tgt),
            ids_map_of_id_preserving (clearHost_id cur)]
        refine ⟨?_, ?_, ?_⟩
        · show tgt ∈ _
          rw [hids1]
          exact htgtmem
        · show List.Nodup _
          rw [hids1]
          exact hnd
        · intro q hq
          obtain ⟨p1, hp1, hpe1⟩ := List.mem_map.mp hq
          obtain ⟨p, hp, hpe⟩ := List.mem_map.mp hp1
          rw [← hpe1, ← hpe]
          show (setHost tgt (clearHost cur p)).isHost = true ↔
            (setHost tgt (clearHost cur p)).id = tgt
          have hcid : (clearHost cur p).id = p.id := clearHost_id cur p
          by_cases hb2 : (p.id == tgt) = true
          · have hbc : ((clearHost cur p).id == tgt) = true := by
              rw [hcid]
              exact hb2
            unfold setHost
            rw [if_pos hbc]
            simp [hcid, beq_iff_eq.mp hb2]
          · have hbc : ¬ ((clearHost cur p).id == tgt) = true := by
              rw [hcid]
              simp [hb2]
            unfold setHost
            rw [if_neg hbc]
            rw [hcid]
            have hnt : ¬ p.id = tgt := fun he => hb2 (beq_iff_eq.mpr he)
            unfold clearHost
            by_cases hb1 : (p.id == cur) = true
            · rw [if_pos hb1]
              simp [hnt]
            · rw [if_neg hb1]
              rw [hiff p hp, hcur]
              have hnc : ¬ p.id = cur := fun he => hb1 (beq_iff_eq.mpr he)
              simp [hnt, hnc]

theorem hostOk_joinAdd {room : Room} {pl : Player} (hpl : pl.isHost = false)
    (h : hostOk room) (hfresh : ¬ pl.id ∈ room.players.map Player.id) :
    hostOk { room with players := mapSet room.players pl } := by
  obtain ⟨hmem, hnd, hiff⟩ := h
  have hset : mapSet room.players pl = room.players ++ [pl] := mapSet_of_fresh hfresh
  have hne : ¬ pl.id = room.hostId := fun he => hfresh (he ▸ hmem)
  refine ⟨?_, ?_, ?_⟩
  · show room.hostId ∈ (mapSet room.players pl).map Player.id
    rw [hset, List.map_append]
    exact List.mem_append_left _ hmem
  · show ((mapSet room.players pl).map Player.id).Nodup
    rw [hset, List.map_append, List.nodup_append]
    refine ⟨hnd, List.nodup_singleton pl.id, ?_⟩
    intro a ha hb
    simp only [List.map_cons, List.map_nil, List.mem_singleton] at hb
    exact hfresh (hb ▸ ha)
  · intro q hq
    show q.isHost = true ↔ q.id = room.hostId
    rw [hset] at hq
    rcases List.mem_append.mp hq with hq1 | hq1
    · exact hiff q hq1
    · rw [List.mem_singleton.mp hq1]
      rw [hpl]
      constructor
      · intro hfalse
        cases hfalse
      · intro he
        exact absurd he hne

theorem hostOk_newRoom (pid nm fid fcode : String) :
    hostOk ⟨fid, fcode, [⟨pid, nm, true, true, none, false⟩], false, false, pid, none⟩ := by
  refine ⟨by simp, by simp, ?_⟩
  intro p hp
  rw [List.mem_singleton.mp hp]
  simp

theorem hostOk_resolveLoop (targets responded : List String) :
    ∀ room, hostOk room → hostOk (resolveLoop targets responded room).1 := by
  induction targets with
  | nil =>
    intro room h
    exact h
  | cons tid rest ih =>
    intro room h
    rw [resolveLoop]
    cases mapGet room.players tid with
    | none => exact ih room h
    | some q =>
      cases responded.contains tid with
      | true =>
        simp only [if_true]
        exact ih room h
      | false =>
        simp only [Bool.false_eq_true, if_false]
        exact ih _ (hostOk_map (fun p => by split <;> rfl) (fun p => by split <;> rfl)
          rfl rfl h)

-- ── Registry membership lemmas ──────────────────────────────────────────────

theorem mem_updateRoomIn {rooms : Registry} {rid : String} {room1 r : Room}
    (hr : r ∈ updateRoomIn rooms rid room1) : r ∈ rooms ∨ r = room1 := by
  obtain ⟨r0, hr0, hre⟩ := List.mem_map.mp hr
  by_cases hb : (r0.id == rid) = true
  · right
    rw [← hre]
    simp [hb]
  · left
    rw [← hre]
    simpa [hb] using hr0

theorem mem_roomsSet {room r : Room} : ∀ {rooms : Registry},
    r ∈ roomsSet rooms room → r ∈ rooms ∨ r = room := by
  intro rooms
  induction rooms with
  | nil =>
    intro hr
    right
    exact (List.mem_singleton.mp hr)
  | cons r0 rest ih =>
    intro hr
    rw [roomsSet] at hr
    split at hr
    · rcases List.mem_cons.mp hr with h0 | h0
      · right
        exact h0
      · left
        exact List.mem_cons_of_mem r0 h0
    · rcases List.mem_cons.mp hr with h0 | h0
      · left
        rw [h0]
        exact List.mem_cons_self r0 rest
      · rcases ih h0 with h1 | h1
        · left
          exact List.mem_cons_of_mem r0 h1
        · right
          exact h1

theorem mem_roomsDelete {rooms : Registry} {rid : String} {r : Room}
    (hr : r ∈ roomsDelete rooms rid) : r ∈ rooms :=
  (List.mem_filter.mp hr).1

theorem joinLookup_mem {rooms : Registry} {a b : Option String} {room : Room}
    (h : joinLookup rooms a b = some room) : room ∈ rooms := by
  unfold joinLookup at h
  split at h
  · unfold getRoomById at h
    exact List.mem_of_find?_eq_some h
  · split at h
    · unfold getRoomByCode at h
      exact List.mem_of_find?_eq_some h
    · cases h

-- ── Host promotion on removal ───────────────────────────────────────────────

theorem hostOk_removePromote {room : Room} {h0 : Player} {t : List Player}
    (h : hostOk room) (hdel : mapDelete room.players room.hostId = h0 :: t) :
    hostOk { room with players := { h0 with isHost := true } :: t, hostId := h0.id } := by
  obtain ⟨hmem, hnd, hiff⟩ := h
  have hsub : (h0 :: t).Sublist room.players := by
    rw [← hdel]
    exact List.filter_sublist room.players
  have hnd1 : ((h0 :: t).map Player.id).Nodup :=
    List.Nodup.sublist (hsub.map Player.id) hnd
  have hall1 : ∀ q ∈ h0 :: t, q ∈ room.players ∧ ¬ q.id = room.hostId := by
    intro q hq
    rw [← hdel] at hq
    obtain ⟨hq1, hq2⟩ := List.mem_filter.mp hq
    rw [Bool.not_eq_true'] at hq2
    exact ⟨hq1, beq_eq_false_iff_ne.mp hq2⟩
  refine ⟨?_, ?_, ?_⟩
  · show h0.id ∈ ({ h0 with isHost := true } : Player).id :: t.map Player.id
    exact List.mem_cons_self _ _
  · show (({ h0 with isHost := true } : Player).id :: t.map Player.id).Nodup
    exact hnd1
  · intro q hq
    rcases List.mem_cons.mp hq with hq1 | hq1
    · rw [hq1]
      simp
    · have hq2 := hall1 q (List.mem_cons_of_mem h0 hq1)
      have hqf : q.isHost = false := by
        rw [← Bool.not_eq_true, hiff q hq2.1]
        exact hq2.2
      rw [hqf]
      have hqne : ¬ q.id = h0.id := by
        intro he
        have hnd2 := hnd1
        rw [List.map_cons, List.nodup_cons] at hnd2
        exact hnd2.1 (he ▸ List.mem_map.mpr ⟨q, hq1, rfl⟩)
      constructor
      · intro hfalse
        cases hfalse
      · intro he
        exact absurd he hqne

theorem hostOk_removePlayer {rooms : Registry} {rid pid : String}
    (h : ∀ r ∈ rooms, hostOk r) :
    ∀ r ∈ (removePlayerFromRoom rooms rid pid).1, hostOk r := by
  intro r hr
  unfold removePlayerFromRoom at hr
  split at hr
  · exact h r hr
  · rename_i room hfind
    have hroomOk : hostOk room := by
      refine h room ?_
      unfold getRoomById at hfind
      exact List.mem_of_find?_eq_some hfind
    split at hr
    · exact h r (mem_roomsDelete hr)
    · rename_i h0 t hdel
      split at hr
      · rename_i hb
        rcases mem_updateRoomIn hr with hr0 | hr0
        · exact h r hr0
        · rw [hr0]
          refine hostOk_removePromote hroomOk ?_
          rw [beq_iff_eq.mp hb]
          exact hdel
      · rename_i hb
        rw [Bool.not_eq_true] at hb
        rcases mem_updateRoomIn hr with hr0 | hr0
        · exact h r hr0
        · rw [hr0]
          obtain ⟨hmem, hnd, hiff⟩ := hroomOk
          have hsub : (h0 :: t).Sublist room.players := by
            rw [← hdel]
            exact List.filter_sublist room.players
          refine ⟨?_, ?_, ?_⟩
          · show room.hostId ∈ (h0 :: t).map Player.id
            obtain ⟨q, hq, hqid⟩ := List.mem_map.mp hmem
            have hqkeep : q ∈ h0 :: t := by
              rw [← hdel]
              refine List.mem_filter.mpr ⟨hq, ?_⟩
              rw [Bool.not_eq_true']
              refine beq_eq_false_iff_ne.mpr ?_
              intro he
              rw [← hqid, he] at hb
              rw [beq_self_eq_true] at hb
              cases hb
            exact List.mem_map.mpr ⟨q, hqkeep, hqid⟩
          · exact List.Nodup.sublist (hsub.map Player.id) hnd
          · intro q hq
            exact hiff q (hsub.subset hq)


theorem getRoomById_mem {rooms : Registry} {rid : String} {room : Room}
    (h : getRoomById rooms rid = some room) : room ∈ rooms :=
  List.mem_of_find?_eq_some (show rooms.find? (fun r => r.id == rid) = some room from h)

theorem stateOk_fire {rooms : Registry} (rid : String) (dl : Nat)
    (h : ∀ r ∈ rooms, hostOk r) : ∀ r ∈ (fireAttentionCheck rooms rid dl).1, hostOk r := by
  cases hfind : getRoomById rooms rid with
  | none =>
    simp only [fireAttentionCheck, hfind]
    exact h
  | some room =>
    cases hvo : room.votingOpen with
    | false =>
      simp only [fireAttentionCheck, hfind, hvo, Bool.not_false, if_true]
      exact h
    | true =>
      cases hemp : ((room.players.filter
          (fun p => !(p.id == room.hostId) && !p.hasVoted)).map Player.id).isEmpty with
      | true =>
        simp only [fireAttentionCheck, hfind, hvo, hemp, Bool.not_true, Bool.false_eq_true,
          if_false, if_true]
        exact h
      | false =>
        simp only [fireAttentionCheck, hfind, hvo, hemp, Bool.not_true, Bool.false_eq_true,
          if_false]
        intro r hr
        rcases mem_updateRoomIn hr with hr0 | hr0
        · exact h r hr0
        · rw [hr0]
          exact hostOk_congr rfl rfl (h room (getRoomById_mem hfind))

theorem stateOk_resolve {rooms : Registry} (rid : String)
    (h : ∀ r ∈ rooms, hostOk r) : ∀ r ∈ (resolveAttentionCheck rooms rid).1, hostOk r := by
  cases hfind : getRoomById rooms rid with
  | none =>
    simp only [resolveAttentionCheck, hfind]
    exact h
  | some room =>
    cases hchk : room.activeCheck with
    | none =>
      simp only [resolveAttentionCheck, hfind, hchk]
      exact h
    | some chk =>
      simp only [resolveAttentionCheck, hfind, hchk]
      intro r hr
      rcases mem_updateRoomIn hr with hr0 | hr0
      · exact h r hr0
      · rw [hr0]
        have hOk := h room (getRoomById_mem hfind)
        simp only [resolveCheckRoom, hchk]
        exact hostOk_resolveLoop chk.targetIds chk.respondedIds _ (hostOk_congr rfl rfl hOk)

theorem stateOk_stepState {st : ServerState} {e : Event}
    (hl : legalEvent st e = true) (h : stateOk st) : stateOk (stepState st e) := by
  cases e with
  | fireEv rid dl =>
    intro r hr
    exact stateOk_fire rid dl h r hr
  | resolveEv rid =>
    intro r hr
    exact stateOk_resolve rid h r hr
  | closeEv pid =>
    cases hlk : st.peerRooms.lookup pid with
    | none =>
      intro r hr
      simp only [stepState, step, handleClose, hlk] at hr
      exact h r hr
    | some rid =>
      cases hcl : (removePlayerFromRoom st.rooms rid pid).2.1 with
      | true =>
        intro r hr
        simp only [stepState, step, handleClose, hlk, hcl, if_true] at hr
        exact hostOk_removePlayer h r hr
      | false =>
        intro r hr
        simp only [stepState, step, handleClose, hlk, hcl, Bool.false_eq_true, if_false] at hr
        exact hostOk_removePlayer h r hr
  | msgEv pid m fid fcode =>
    cases m with
    | none =>
      intro r hr
      simp only [stepState, step, handleMsg] at hr
      exact h r hr
    | some msg =>
      cases msg with
      | join name roomId code =>
        cases hn : (jsTrim name == "") with
        | true =>
          intro r hr
          simp only [stepState, step, handleMsg, hn, if_true] at hr
          exact h r hr
        | false =>
          cases hj : joinLookup st.rooms roomId code with
          | none =>
            intro r hr
            simp only [stepState, step, handleMsg, hn, Bool.false_eq_true, if_false, hj] at hr
            rcases mem_roomsSet hr with hr0 | hr0
            · exact h r hr0
            · rw [hr0]
              exact hostOk_newRoom pid (jsTrim name) fid fcode
          | some room =>
            have hfresh : ¬ pid ∈ room.players.map Player.id := by
              simp only [legalEvent, hj, Bool.not_eq_true'] at hl
              intro hmem2
              have hcon : (room.players.map Player.id).contains pid = true :=
                List.elem_iff.mpr hmem2
              rw [hl] at hcon
              cases hcon
            intro r hr
            simp only [stepState, step, handleMsg, hn, Bool.false_eq_true, if_false, hj] at hr
            rcases mem_updateRoomIn hr with hr0 | hr0
            · exact h r hr0
            · rw [hr0]
              exact hostOk_joinAdd rfl (h room (joinLookup_mem hj)) hfresh
      | openVotingMsg =>
        intro r hr
        simp only [stepState, step, handleMsg] at hr
        exact h r hr
      | vote value =>
        cases hlk : st.peerRooms.lookup pid with
        | none =>
          intro r hr
          simp only [stepState, step, handleMsg, hlk] at hr
          exact h r hr
        | some rid =>
          cases hrm : getRoomById st.rooms rid with
          | none =>
            intro r hr
            simp only [stepState, step, handleMsg, hlk, hrm] at hr
            exact h r hr
          | some room =>
            cases hcv : (castVote room pid value).2 with
            | false =>
              intro r hr
              simp only [stepState, step, handleMsg, hlk, hrm, hcv, Bool.false_eq_true,
                if_false] at hr
              exact h r hr
            | true =>
              intro r hr
              simp only [stepState, step, handleMsg, hlk, hrm, hcv, if_true] at hr
              rcases mem_updateRoomIn hr with hr0 | hr0
              · exact h r hr0
              · rw [hr0]
                exact hostOk_castVote room pid value (h room (getRoomById_mem hrm))
      | reveal =>
        cases hlk : st.peerRooms.lookup pid with
        | none =>
          intro r hr
          simp only [stepState, step, handleMsg, hlk] at hr
          exact h r hr
        | some rid =>
          cases hrm : getRoomById st.rooms rid with
          | none =>
            intro r hr
            simp only [stepState, step, handleMsg, hlk, hrm] at hr
            exact h r hr
          | some room =>
            cases hhost : (room.hostId == pid) with
            | false =>
              intro r hr
              simp only [stepState, step, handleMsg, hlk, hrm, hhost, Bool.not_false,
                if_true] at hr
              exact h r hr
            | true =>
              intro r hr
              simp only [stepState, step, handleMsg, hlk, hrm, hhost, Bool.not_true,
                Bool.false_eq_true, if_false] at hr
              rcases mem_updateRoomIn hr with hr0 | hr0
              · exact h r hr0
              · rw [hr0]
                exact hostOk_revealVotes room (h room (getRoomById_mem hrm))
      | newRound =>
        cases hlk : st.peerRooms.lookup pid with
        | none =>
          intro r hr
          simp only [stepState, step, handleMsg, hlk] at hr
          exact h r hr
        | some rid =>
          cases hrm : getRoomById st.rooms rid with
          | none =>
            intro r hr
            simp only [stepState, step, handleMsg, hlk, hrm] at hr
            exact h r hr
          | some room =>
            cases hhost : (room.hostId == pid) with
            | false =>
              intro r hr
              simp only [stepState, step, handleMsg, hlk, hrm, hhost, Bool.not_false,
                if_true] at hr
              exact h r hr
            | true =>
              intro r hr
              simp only [stepState, step, handleMsg, hlk, hrm, hhost, Bool.not_true,
                Bool.false_eq_true, if_false] at hr
              rcases mem_updateRoomIn hr with hr0 | hr0
              · exact h r hr0
              · rw [hr0]
                exact hostOk_resetRound room (h room (getRoomById_mem hrm))
      | assignHostMsg target =>
        cases hlk : st.peerRooms.lookup pid with
        | none =>
          intro r hr
          simp only [stepState, step, handleMsg, hlk] at hr
          exact h r hr
        | some rid =>
          cases hrm : getRoomById st.rooms rid with
          | none =>
            intro r hr
            simp only [stepState, step, handleMsg, hlk, hrm] at hr
            exact h r hr
          | some room =>
            cases has : (assignHost room pid target).2 with
            | false =>
              intro r hr
              simp only [stepState, step, handleMsg, hlk, hrm, has, Bool.false_eq_true,
                if_false] at hr
              exact h r hr
            | true =>
              intro r hr
              simp only [stepState, step, handleMsg, hlk, hrm, has, if_true] at hr
              rcases mem_updateRoomIn hr with hr0 | hr0
              · exact h r hr0
              · rw [hr0]
                exact hostOk_assignHost room pid target (h room (getRoomById_mem hrm))
      | checkIn =>
        cases hlk : st.peerRooms.lookup pid with
        | none =>
          intro r hr
          simp only [stepState, step, handleMsg, hlk] at hr
          exact h r hr
        | some rid =>
          cases hrm : getRoomById st.rooms rid with
          | none =>
            intro r hr
            simp only [stepState, step, handleMsg, hlk, hrm] at hr
            exact h r hr
          | some room =>
            intro r hr
            simp only [stepState, step, handleMsg, hlk, hrm] at hr
            rcases mem_updateRoomIn hr with hr0 | hr0
            · exact h r hr0
            · rw [hr0]
              exact hostOk_handleCheckIn room pid (h room (getRoomById_mem hrm))
      | markActive =>
        cases hlk : st.peerRooms.lookup pid with
        | none =>
          intro r hr
          simp only [stepState, step, handleMsg, hlk] at hr
          exact h r hr
        | some rid =>
          cases hrm : getRoomById st.rooms rid with
          | none =>
            intro r hr
            simp only [stepState, step, handleMsg, hlk, hrm] at hr
            exact h r hr
          | some room =>
            cases hma : (handleMarkActive room pid).2 with
            | false =>
              intro r hr
              simp only [stepState, step, handleMsg, hlk, hrm, hma, Bool.false_eq_true,
                if_false] at hr
              exact h r hr
            | true =>
              intro r hr
              simp only [stepState, step, handleMsg, hlk, hrm, hma, if_true] at hr
              rcases mem_updateRoomIn hr with hr0 | hr0
              · exact h r hr0
              · rw [hr0]
                exact hostOk_handleMarkActive room pid (h room (getRoomById_mem hrm))

theorem stateOk_reachable {st : ServerState} (h : Reachable st) : stateOk st := by
  induction h with
  | init =>
    intro r hr
    cases hr
  | next st e hr hl ih => exact stateOk_stepState hl ih


-- ── Claim C4 ────────────────────────────────────────────────────────────────

/-- Claim C4 is false as stated: the dispatcher does not guard JOIN
against a peer that is already a member. The host creating a room and
then re-JOINing it by roomId overwrites its own player record with
`isHost = false`, leaving the room with zero hosts while `hostId` still
names it. -/
theorem single_host_counterexample :
    (runEvents initState
      [Event.msgEv ("alice") (some (ClientMessage.join ("Alice") none none)) ("r1") ("AAAA"),
        Event.msgEv ("alice") (some (ClientMessage.join ("Alice") (some ("r1")) none))
          ("r2") ("BBBB")]).rooms.map
      (fun r => (r.hostId, r.players.countP (fun p => p.isHost))) = [("alice", 0)] := by
  decide

/-- Claim C4 (amended): in every state reachable through dispatcher
operations in which no JOIN reuses a peer id that is already a member of
the room it lands in (fresh connections, the intended operation mode),
every live room has exactly one player with `isHost = true`, and every
host-flagged player is the one `hostId` names. -/
theorem single_host_invariant (st : ServerState) (h : Reachable st) :
    ∀ r ∈ st.rooms, r.players.countP (fun p => p.isHost) = 1 ∧
      ∀ p ∈ r.players, p.isHost = true → p.id = r.hostId := by
  intro r hr
  obtain ⟨hmem, hnd, hiff⟩ := stateOk_reachable h r hr
  constructor
  · have h1 : r.players.countP (fun p => p.isHost) =
        r.players.countP (fun p => p.id == r.hostId) := by
      refine List.countP_congr ?_
      intro p hp
      rw [beq_iff_eq]
      exact hiff p hp
    have h2 : (r.players.map Player.id).count r.hostId =
        r.players.countP (fun p => p.id == r.hostId) := by
      rw [List.count_eq_countP, List.countP_map]
      rfl
    rw [h1, ← h2]
    exact List.count_eq_one_of_mem hnd hmem
  · intro p hp hh
    exact (hiff p hp).mp hh

/-- Witness for the amended C4: the room created by a single
room-creating JOIN (a legal event from boot) has exactly one host. -/
theorem single_host_invariant_witness :
    (⟨"r1", "AAAA", [⟨"alice", "Alice", true, true, none, false⟩], false, false, "alice",
      none⟩ : Room).players.countP (fun p => p.isHost) = 1 := by
  have h := single_host_invariant
    (stepState initState (Event.msgEv ("alice")
      (some (ClientMessage.join ("Alice") none none)) ("r1") ("AAAA")))
    (Reachable.next initState
      (Event.msgEv ("alice") (some (ClientMessage.join ("Alice") none none)) ("r1") ("AAAA"))
      Reachable.init (by decide))
  exact (h _ (by decide)).1

-- ── Claim C5 ────────────────────────────────────────────────────────────────

/-- Claim C5: removing the host of a well-formed room with at least two
members keeps the room open, promotes exactly one remaining member
(whose id the updated `hostId` names, with the `isHost` flags agreeing)
and broadcasts `HOST_CHANGED` with that id; removing the sole member of
a room closes it, deleting it from the registry — a room never survives
with zero players. -/
theorem host_failover :
    (∀ (rooms : Registry) (rid : String) (room : Room),
        getRoomById rooms rid = some room → hostOk room →
        2 ≤ room.players.length →
        (removePlayerFromRoom rooms rid room.hostId).2.1 = false ∧
        ∃ room1,
          getRoomById (removePlayerFromRoom rooms rid room.hostId).1 rid = some room1 ∧
          room1.players.countP (fun p => p.isHost) = 1 ∧
          room1.hostId ∈ room1.players.map Player.id ∧
          (∀ p ∈ room1.players, p.isHost = true ↔ p.id = room1.hostId) ∧
          ∃ s ∈ (removePlayerFromRoom rooms rid room.hostId).2.2,
            s.2 = ServerMessage.hostChanged room1.hostId) ∧
    (∀ (rooms : Registry) (rid pid : String) (room : Room),
        getRoomById rooms rid = some room → room.players.map Player.id = [pid] →
        removePlayerFromRoom rooms rid pid = (roomsDelete rooms rid, true, []) ∧
        getRoomById (roomsDelete rooms rid) rid = none) := by
  constructor
  · intro rooms rid room hfind hOk hlen
    obtain ⟨hmem, hnd, hiff⟩ := hOk
    have hex : ∃ q ∈ room.players, ¬ q.id = room.hostId := by
      rw [show room.players = room.players from rfl]
      cases hps : room.players with
      | nil =>
        rw [hps] at hlen
        exact absurd hlen (by decide)
      | cons a rest =>
        cases hrest : rest with
        | nil =>
          rw [hps, hrest] at hlen
          simp at hlen
        | cons b rest2 =>
          have hab : ¬ a.id = b.id := by
            have hnd2 := hnd
            rw [hps, hrest, List.map_cons, List.map_cons, List.nodup_cons] at hnd2
            exact fun he => hnd2.1 (he ▸ List.mem_cons_self b.id (rest2.map Player.id))
          by_cases ha : a.id = room.hostId
          · exact ⟨b, List.mem_cons_of_mem a (List.mem_cons_self b rest2),
              fun hb => hab (ha.trans hb.symm)⟩
          · exact ⟨a, List.mem_cons_self a (b :: rest2), ha⟩
    obtain ⟨q, hq, hqne⟩ := hex
    have hqkeep : q ∈ mapDelete room.players room.hostId := by
      refine List.mem_filter.mpr ⟨hq, ?_⟩
      rw [Bool.not_eq_true']
      exact beq_eq_false_iff_ne.mpr hqne
    cases hdel : mapDelete room.players room.hostId with
    | nil =>
      rw [hdel] at hqkeep
      cases hqkeep
    | cons h0 t =>
      have hb : (room.hostId == room.hostId) = true := beq_self_eq_true room.hostId
      have hall1 : ∀ q2 ∈ h0 :: t, q2 ∈ room.players ∧ ¬ q2.id = room.hostId := by
        intro q2 hq2
        rw [← hdel] at hq2
        obtain ⟨hq21, hq22⟩ := List.mem_filter.mp hq2
        rw [Bool.not_eq_true'] at hq22
        exact ⟨hq21, beq_eq_false_iff_ne.mp hq22⟩
      have hpr := List.find?_some
        (show rooms.find? (fun r2 => r2.id == rid) = some room from hfind)
      have hrid : room.id = rid := beq_iff_eq.mp hpr
      have hOk2 : hostOk room := ⟨hmem, hnd, hiff⟩
      have hOk1 := hostOk_removePromote hOk2 hdel
      have heq : removePlayerFromRoom rooms rid room.hostId =
          (updateRoomIn rooms rid
            { room with players := ({ h0 with isHost := true } :: t), hostId := h0.id },
            false,
            broadcastToRoom (updateRoomIn rooms rid
              { room with players := ({ h0 with isHost := true } :: t), hostId := h0.id })
              rid (ServerMessage.hostChanged h0.id) none) := by
        simp only [removePlayerFromRoom, hfind, hdel, hb, if_true]
      have hfind1 : getRoomById (updateRoomIn rooms rid
          { room with players := ({ h0 with isHost := true } :: t), hostId := h0.id }) rid =
          some { room with players := ({ h0 with isHost := true } :: t), hostId := h0.id } :=
        getRoomById_updateRoomIn hfind hrid
      refine ⟨by rw [heq], ?_⟩
      refine ⟨{ room with players := ({ h0 with isHost := true } :: t), hostId := h0.id },
        ?_, ?_, hOk1.1, hOk1.2.2, ?_⟩
      · rw [heq]
        exact hfind1
      · show (({ h0 with isHost := true } : Player) :: t).countP (fun p => p.isHost) = 1
        rw [List.countP_cons_of_pos _ _ (by rfl)]
        have ht0 : t.countP (fun p => p.isHost) = 0 := by
          rw [List.countP_eq_zero]
          intro q2 hq2
          have hq2f := hall1 q2 (List.mem_cons_of_mem h0 hq2)
          have : q2.isHost = false := by
            rw [← Bool.not_eq_true, hiff q2 hq2f.1]
            exact hq2f.2
          simp [this]
        rw [ht0]
      · rw [heq]
        show ∃ s ∈ broadcastToRoom _ rid (ServerMessage.hostChanged h0.id) none,
          s.2 = ServerMessage.hostChanged h0.id
        unfold broadcastToRoom
        rw [hfind1]
        refine ⟨(h0.id, ServerMessage.hostChanged h0.id), ?_, rfl⟩
        refine List.mem_map.mpr ⟨h0.id, ?_, rfl⟩
        refine List.mem_filter.mpr ⟨?_, by rfl⟩
        show h0.id ∈ ({ h0 with isHost := true } : Player).id :: t.map Player.id
        exact List.mem_cons_self _ _
  · intro rooms rid pid room hfind hids
    have hdel : mapDelete room.players pid = [] := by
      unfold mapDelete
      rw [List.filter_eq_nil_iff]
      intro a ha
      have hmem2 : a.id ∈ room.players.map Player.id := List.mem_map.mpr ⟨a, ha, rfl⟩
      rw [hids] at hmem2
      have : a.id = pid := List.mem_singleton.mp hmem2
      simp [this]
    constructor
    · simp only [removePlayerFromRoom, hfind, hdel]
    · unfold getRoomById roomsDelete
      rw [List.find?_eq_none]
      intro x hx
      have hx2 := (List.mem_filter.mp hx).2
      rw [Bool.not_eq_true'] at hx2
      simp [hx2]

/-- A two-member room for the failover witness. -/
def c5Room : Room :=
  ⟨"room5", "WXYZ",
    [⟨"alice", "Alice", true, true, none, false⟩,
      ⟨"bob", "Bob", false, true, none, false⟩],
    false, false, "alice", none⟩

/-- A single-member room for the closure witness. -/
def c5Solo : Room :=
  ⟨"room6", "WXYA", [⟨"dan", "Dan", true, true, none, false⟩], false, false, "dan", none⟩

/-- The room left behind when alice is removed from `c5Room`. -/
def c5RoomAfter : Room :=
  ⟨"room5", "WXYZ", [⟨"bob", "Bob", true, true, none, false⟩], false, false, "bob", none⟩

/-- Witness for C5: removing alice from the two-member `c5Room` promotes
bob (one host, hostId bob, HOST_CHANGED broadcast); removing dan from
the singleton `c5Solo` destroys the room. -/
theorem host_failover_witness :
    (removePlayerFromRoom [c5Room] ("room5") c5Room.hostId).2.1 = false ∧
    getRoomById (removePlayerFromRoom [c5Room] ("room5") c5Room.hostId).1 ("room5")
      = some c5RoomAfter ∧
    c5RoomAfter.players.countP (fun p => p.isHost) = 1 ∧
    c5RoomAfter.hostId ∈ c5RoomAfter.players.map Player.id ∧
    ((removePlayerFromRoom [c5Room] ("room5") c5Room.hostId).2.2.any
      (fun s => s.2 == ServerMessage.hostChanged ("bob"))) = true ∧
    removePlayerFromRoom [c5Solo] ("room6") ("dan")
      = (roomsDelete [c5Solo] ("room6"), true, []) ∧
    getRoomById (roomsDelete [c5Solo] ("room6")) ("room6") = none := by
  obtain ⟨hclosed, room1, hfind1, hcount, hmem, hiff, s, hs, hs2⟩ :=
    host_failover.1 [c5Room] ("room5") c5Room (by decide)
      (by unfold hostOk; decide) (by decide)
  obtain ⟨hc1, hc2⟩ := host_failover.2 [c5Solo] ("room6") ("dan") c5Solo (by decide)
    (by decide)
  have hsome : getRoomById (removePlayerFromRoom [c5Room] ("room5") c5Room.hostId).1
      ("room5") = some c5RoomAfter := by decide
  have hr1 : room1 = c5RoomAfter := Option.some.inj (hfind1.symm.trans hsome)
  rw [hr1] at hcount hmem hs2
  refine ⟨hclosed, hsome, hcount, hmem, List.any_eq_true.mpr ⟨s, hs, ?_⟩, hc1, hc2⟩
  rw [hs2]
  decide

-- ── Claim C6 ────────────────────────────────────────────────────────────────

/-- Is this outbound message an `ERROR`? -/
def isErrorMsg : ServerMessage → Bool
  | ServerMessage.error _ => true
  | _ => false

/-- Every send a broadcast performs carries the broadcast message. -/
theorem mem_broadcast_snd {rooms : Registry} {rid : String} {msg : ServerMessage}
    {ex : Option String} {s : Send} (hs : s ∈ broadcastToRoom rooms rid msg ex) :
    s.2 = msg := by
  unfold broadcastToRoom at hs
  cases hg : getRoomById rooms rid with
  | none =>
    rw [hg] at hs
    cases hs
  | some room =>
    rw [hg] at hs
    obtain ⟨i, _, hxi⟩ := List.mem_map.mp hs
    rw [← hxi]

/-- Claim C6: failure isolation of the dispatcher. Whenever processing an
inbound message produces an `ERROR` send (malformed JSON, empty JOIN
name, a non-host invoking a host-only operation, a vote outside an open
session, an assign-host that fails validation), the entire output is a
single `ERROR` directed at the sender: nothing is sent to anybody else
and neither the room registry nor the peer index changes. -/
theorem error_isolation (st : ServerState) (pid : String) (m : Option ClientMessage)
    (fid fcode : String)
    (h : ((handleMsg st pid m fid fcode).2.any (fun s => isErrorMsg s.2)) = true) :
    ∃ etext, handleMsg st pid m fid fcode = (st, [(pid, ServerMessage.error etext)]) := by
  cases m with
  | none => exact ⟨"Invalid JSON", rfl⟩
  | some msg =>
    cases msg with
    | join name roomId code =>
      cases hn : ((jsTrim name) == "") with
      | true =>
        refine ⟨"Name is required", ?_⟩
        simp [handleMsg, hn]
      | false =>
        exfalso
        cases hj : joinLookup st.rooms roomId code with
        | none =>
          simp [handleMsg, hn, hj, isErrorMsg] at h
        | some room =>
          simp only [handleMsg, hn, hj, Bool.false_eq_true, if_false] at h
          rw [List.any_cons, Bool.or_eq_true] at h
          rcases h with h | h
          · cases h
          · rw [List.any_eq_true] at h
            obtain ⟨s, hsmem, hserr⟩ := h
            rw [mem_broadcast_snd hsmem] at hserr
            cases hserr
    | openVotingMsg =>
      exact absurd h (by simp [handleMsg])
    | vote value =>
      cases hlk : st.peerRooms.lookup pid with
      | none => exact absurd h (by simp [handleMsg, hlk])
      | some rid =>
        cases hrm : getRoomById st.rooms rid with
        | none => exact absurd h (by simp [handleMsg, hlk, hrm])
        | some room =>
          cases hcv : (castVote room pid value).2 with
          | true =>
            exfalso
            simp only [handleMsg, hlk, hrm, hcv, if_true] at h
            rw [List.any_eq_true] at h
            obtain ⟨s, hsmem, hserr⟩ := h
            rw [mem_broadcast_snd hsmem] at hserr
            cases hserr
          | false =>
            refine ⟨"Cannot vote right now", ?_⟩
            simp [handleMsg, hlk, hrm, hcv]
    | reveal =>
      cases hlk : st.peerRooms.lookup pid with
      | none => exact absurd h (by simp [handleMsg, hlk])
      | some rid =>
        cases hrm : getRoomById st.rooms rid with
        | none => exact absurd h (by simp [handleMsg, hlk, hrm])
        | some room =>
          cases hhost : (room.hostId == pid) with
          | false =>
            refine ⟨"Only the host can reveal votes", ?_⟩
            simp [handleMsg, hlk, hrm, hhost]
          | true =>
            exfalso
            simp only [handleMsg, hlk, hrm, hhost, Bool.not_true,
              Bool.false_eq_true, if_false] at h
            rw [List.any_eq_true] at h
            obtain ⟨s, hsmem, hserr⟩ := h
            rw [mem_broadcast_snd hsmem] at hserr
            cases hserr
    | newRound =>
      cases hlk : st.peerRooms.lookup pid with
      | none => exact absurd h (by simp [handleMsg, hlk])
      | some rid =>
        cases hrm : getRoomById st.rooms rid with
        | none => exact absurd h (by simp [handleMsg, hlk, hrm])
        | some room =>
          cases hhost : (room.hostId == pid) with
          | false =>
            refine ⟨"Only the host can start a new round", ?_⟩
            simp [handleMsg, hlk, hrm, hhost]
          | true =>
            exfalso
            simp only [handleMsg, hlk, hrm, hhost, Bool.not_true,
              Bool.false_eq_true, if_false] at h
            rw [List.any_eq_true] at h
            obtain ⟨s, hsmem, hserr⟩ := h
            rw [mem_broadcast_snd hsmem] at hserr
            cases hserr
    | assignHostMsg target =>
      cases hlk : st.peerRooms.lookup pid with
      | none => exact absurd h (by simp [handleMsg, hlk])
      | some rid =>
        cases hrm : getRoomById st.rooms rid with
        | none => exact absurd h (by simp [handleMsg, hlk, hrm])
        | some room =>
          cases has : (assignHost room pid target).2 with
          | true =>
            exfalso
            simp only [handleMsg, hlk, hrm, has, if_true] at h
            rw [List.any_eq_true] at h
            obtain ⟨s, hsmem, hserr⟩ := h
            rw [mem_broadcast_snd hsmem] at hserr
            cases hserr
          | false =>
            refine ⟨"Cannot assign host", ?_⟩
            simp [handleMsg, hlk, hrm, has]
    | checkIn =>
      cases hlk : st.peerRooms.lookup pid with
      | none => exact absurd h (by simp [handleMsg, hlk])
      | some rid =>
        cases hrm : getRoomById st.rooms rid with
        | none => exact absurd h (by simp [handleMsg, hlk, hrm])
        | some room => exact absurd h (by simp [handleMsg, hlk, hrm])
    | markActive =>
      cases hlk : st.peerRooms.lookup pid with
      | none => exact absurd h (by simp [handleMsg, hlk])
      | some rid =>
        cases hrm : getRoomById st.rooms rid with
        | none => exact absurd h (by simp [handleMsg, hlk, hrm])
        | some room =>
          cases hma : (handleMarkActive room pid).2 with
          | true =>
            exfalso
            simp only [handleMsg, hlk, hrm, hma, if_true] at h
            rw [List.any_eq_true] at h
            obtain ⟨s, hsmem, hserr⟩ := h
            rw [mem_broadcast_snd hsmem] at hserr
            cases hserr
          | false => exact absurd h (by simp [handleMsg, hlk, hrm, hma])

/-- Witness for C6: a malformed message (JSON parse failure) yields a
single directed error and no state change. -/
theorem error_isolation_witness :
    handleMsg c2State ("bob") none ("x") ("y")
      = (c2State, [("bob", ServerMessage.error ("Invalid JSON"))]) := by
  obtain ⟨t, ht⟩ := error_isolation c2State ("bob") none ("x") ("y") (by decide)
  exact ht.trans (ht.symm.trans rfl)

end PPoker
